import Mathlib

/-!
Verification of the instance-segmentation decode / quality-gate / fusion core
of the Expo_modelos repository, shallowly embedded from
`modules/segmentation/segmentation_piezas_engine.py` (class
`SegmentadorPiezasCoples`).  Real-valued tensor entries are modelled as
rationals; external float routines (`np.exp`, `cv2.resize`,
`cv2.dnn.NMSBoxes`) are parameters of the embedded functions.  NumPy arrays
are modelled as dimension/value pairs (rectangular by construction); the
leading batch dimension of the ONNX outputs, which the code immediately
strips with `[0]`, is dropped in the embedding.
-/

namespace ExpoModelos

/-- Python `int()` applied to a float: truncation toward zero. -/
def pyInt (q : ℚ) : ℤ := if 0 ≤ q then ⌊q⌋ else ⌈q⌉

/-- `np.clip(v, lo, hi)`, which NumPy evaluates as `min hi (max lo v)`
(so for `lo > hi` the result is `hi`). -/
def npClip (v lo hi : ℚ) : ℚ := min hi (max lo v)

/-- The logistic sigmoid `1 / (1 + np.exp(-x))` as computed by the engine,
with the external float exponential passed in as `e`. -/
def sigmoidQ (e : ℚ → ℚ) (x : ℚ) : ℚ := 1 / (1 + e (-x))

/-- A dense 2-D float array (mask) on the image canvas, as a total value
function; the canvas extent is carried separately where it matters. -/
def Mask : Type := ℕ → ℕ → ℚ

instance : Inhabited Mask := ⟨fun _ _ => 0⟩

/-- A 2-D NumPy matrix `(rows, cols)` of floats, e.g. the detection tensor
`outputs[0][0]` of shape `(5+K, A)`. -/
structure NpMat where
  rows : ℕ
  cols : ℕ
  val : ℕ → ℕ → ℚ

/-- Pixels of the canvas `h × w` whose mask value exceeds the fixed `0.5`
threshold (`mask > 0.5`), as `(y, x)` pairs — the order `np.where` returns. -/
def activeSet (h w : ℕ) (m : Mask) : Finset (ℕ × ℕ) :=
  (Finset.range h ×ˢ Finset.range w).filter (fun p => (1 : ℚ)/2 < m p.1 p.2)

/-- `np.sum(mask > 0.5)` over an `h × w` canvas. -/
def activeCount (h w : ℕ) (m : Mask) : ℕ := (activeSet h w m).card

/-- Exception kinds raised (and caught) inside the engine. -/
inductive PyErr where
  | valueError
  | zeroDivision
  | indexError
deriving DecidableEq, Repr

/-- Python float division, raising `ZeroDivisionError` on a zero denominator. -/
def pyDiv (a b : ℚ) : Except PyErr ℚ :=
  if b = 0 then .error .zeroDivision else .ok (a / b)

/-- The quality-filter thresholds fixed in `SegmentadorPiezasCoples.__init__`,
kept as a record so theorems can compare configurations. -/
structure FiltrosCalidad where
  min_area_mascara : ℤ := 2000
  min_ancho_mascara : ℤ := 30
  min_alto_mascara : ℤ := 30
  min_area_bbox : ℤ := 500
  min_cobertura_bbox : ℚ := 2/5
  min_densidad_mascara : ℚ := 1/10
  max_ratio_aspecto : ℚ := 10
deriving DecidableEq

/-- The default thresholds of `__init__` (2000 / 30 / 30 / 500 / 0.4 / 0.1 / 10). -/
def cfgDefecto : FiltrosCalidad := {}

/-- One entry of the `segmentaciones` result list (the dict built in
`_procesar_salidas_yolo11_seg`): confidence, integer bbox corners, centroid,
bbox area, mask pixel count, the dense mask with its canvas shape, and the
mask width/height fields (which the code derives from the bbox). -/
structure Segmentacion where
  confianza : ℚ
  x1 : ℤ
  y1 : ℤ
  x2 : ℤ
  y2 : ℤ
  cx : ℤ
  cy : ℤ
  area : ℤ
  area_mascara : ℕ
  ancho_mascara : ℤ
  alto_mascara : ℤ
  mascara : Mask
  canvasH : ℕ
  canvasW : ℕ

instance : Inhabited Segmentacion :=
  ⟨⟨0, 0, 0, 0, 0, 0, 0, 0, 0, 0, 0, default, 0, 0⟩⟩

/-- `cobertura = area_mascara / area_bbox if area_bbox > 0 else 0`. -/
def cobertura (s : Segmentacion) : ℚ :=
  if 0 < s.area then (s.area_mascara : ℚ) / (s.area : ℚ) else 0

/-- Row count of the crop `mascara[y1:y2, x1:x2]` of the `canvasH × canvasW`
mask (Python slice semantics for nonnegative in-range indices). -/
def regionAlto (s : Segmentacion) : ℕ :=
  min s.y2.toNat s.canvasH - min s.y1.toNat s.canvasH

/-- Column count of the crop `mascara[y1:y2, x1:x2]`. -/
def regionAncho (s : Segmentacion) : ℕ :=
  min s.x2.toNat s.canvasW - min s.x1.toNat s.canvasW

/-- `area_region = region_mascara.shape[0] * region_mascara.shape[1]`. -/
def areaRegion (s : Segmentacion) : ℕ := regionAlto s * regionAncho s

/-- `np.sum(region_mascara > 0.5)`: active pixels of the box-local crop. -/
def activosRegion (s : Segmentacion) : ℕ :=
  ((Finset.range (regionAlto s) ×ˢ Finset.range (regionAncho s)).filter
    (fun p => (1 : ℚ)/2 <
      s.mascara (min s.y1.toNat s.canvasH + p.1) (min s.x1.toNat s.canvasW + p.2))).card

/-- `densidad = pixels_activos_region / area_region if area_region > 0 else 0`. -/
def densidad (s : Segmentacion) : ℚ :=
  if 0 < areaRegion s then (activosRegion s : ℚ) / (areaRegion s : ℚ) else 0

/-- The body of `_validar_calidad_mascara` before its `except` clause: the six
quality checks in source order, with the aspect-ratio division modelled as a
fallible Python division (it is the one unguarded division in the body). -/
def validarInner (cfg : FiltrosCalidad) (s : Segmentacion) : Except PyErr Bool :=
  if s.area < cfg.min_area_bbox then .ok false
  else if (s.area_mascara : ℤ) < cfg.min_area_mascara then .ok false
  else if s.ancho_mascara < cfg.min_ancho_mascara then .ok false
  else if s.alto_mascara < cfg.min_alto_mascara then .ok false
  else if cobertura s < cfg.min_cobertura_bbox then .ok false
  else
    match pyDiv ((max s.ancho_mascara s.alto_mascara : ℤ) : ℚ)
        ((min s.ancho_mascara s.alto_mascara : ℤ) : ℚ) with
    | .error err => .error err
    | .ok ratioAspecto =>
      if cfg.max_ratio_aspecto < ratioAspecto then .ok false
      else if densidad s < cfg.min_densidad_mascara then .ok false
      else .ok true

/-- `_validar_calidad_mascara`: the checks wrapped in `try/except`, any
internal exception yielding `False`. -/
def validarCalidadMascara (cfg : FiltrosCalidad) (s : Segmentacion) : Bool :=
  match validarInner cfg s with
  | .ok b => b
  | .error _ => false

/-- A decoded anchor before filtering: center-format normalized box, sigmoid
confidence, and the `K` mask coefficients (the columns of the detection tensor
after transposition). -/
structure Candidate where
  bcx : ℚ
  bcy : ℚ
  bw : ℚ
  bh : ℚ
  conf : ℚ
  coeffs : List ℚ
deriving DecidableEq

/-- The per-anchor decode of `_procesar_salidas_yolo11_seg`: row 0–3 of the
detection tensor give the box, row 4 the raw confidence (passed through the
sigmoid), rows 5.. the mask coefficients. -/
def decodeCandidates (e : ℚ → ℚ) (dets : NpMat) : List Candidate :=
  (List.range dets.cols).map (fun i =>
    { bcx := dets.val 0 i
      bcy := dets.val 1 i
      bw := dets.val 2 i
      bh := dets.val 3 i
      conf := sigmoidQ e (dets.val 4 i)
      coeffs := (List.range (dets.rows - 5)).map (fun k => dets.val (5 + k) i) })

/-- `valid_indices = confidences.flatten() > self.confianza_min`: the strict
confidence filter of `_procesar_salidas_yolo11_seg`. -/
def filtrarPorConfianza (confMin : ℚ) (cands : List Candidate) : List Candidate :=
  cands.filter (fun c => decide (confMin < c.conf))

/-- A pixel-space box as `_yolo_to_xyxy` produces it (float coordinates). -/
structure BBoxQ where
  bx1 : ℚ
  by1 : ℚ
  bx2 : ℚ
  by2 : ℚ
deriving DecidableEq

instance : Inhabited BBoxQ := ⟨⟨0, 0, 0, 0⟩⟩

/-- `_yolo_to_xyxy` on one candidate row: scale the normalized center box to
pixels, convert to corner form, and `np.clip` every coordinate to
`[0, dim-1]`.  Degenerate results are returned as-is. -/
def yoloToXyxyOne (h w : ℕ) (c : Candidate) : BBoxQ :=
  let xc := c.bcx * w
  let yc := c.bcy * h
  let bw := c.bw * w
  let bh := c.bh * h
  { bx1 := npClip (xc - bw/2) 0 ((w : ℚ) - 1)
    by1 := npClip (yc - bh/2) 0 ((h : ℚ) - 1)
    bx2 := npClip (xc + bw/2) 0 ((w : ℚ) - 1)
    by2 := npClip (yc + bh/2) 0 ((h : ℚ) - 1) }

/-- `_yolo_to_xyxy` over the whole candidate array (`np.column_stack` of the
clipped coordinates): one output row per input row, nothing dropped. -/
def yoloToXyxy (h w : ℕ) (cands : List Candidate) : List BBoxQ :=
  cands.map (yoloToXyxyOne h w)

/-- `Σ_k coeffs[k] * protos[k]` pointwise, as the accumulation loop of
`_generar_mascara_prototipos` computes it (defined for
`coeffs.length ≤ protos.length`; the longer-coefficients case raises and is
handled by the caller of this definition). -/
def combinarPrototipos (coeffs : List ℚ) (protos : List Mask) : Mask :=
  fun y x => ((coeffs.zip protos).map (fun p => p.1 * p.2 y x)).sum

/-- `bbox_w_int = max(1, int(bbox_w))` of `_generar_mascara_prototipos`. -/
def bwIntDe (bbox : BBoxQ) : ℤ := max 1 (pyInt (bbox.bx2 - bbox.bx1))

/-- `bbox_h_int = max(1, int(bbox_h))` of `_generar_mascara_prototipos`. -/
def bhIntDe (bbox : BBoxQ) : ℤ := max 1 (pyInt (bbox.by2 - bbox.by1))

/-- `x1_int = max(0, min(int(x1), w - 1))` of `_generar_mascara_prototipos`. -/
def x1iDe (bbox : BBoxQ) (w : ℕ) : ℤ := max 0 (min (pyInt bbox.bx1) ((w : ℤ) - 1))

/-- `y1_int = max(0, min(int(y1), h - 1))` of `_generar_mascara_prototipos`. -/
def y1iDe (bbox : BBoxQ) (h : ℕ) : ℤ := max 0 (min (pyInt bbox.by1) ((h : ℤ) - 1))

/-- `mask_h` after the `if y1_int + mask_h > h` clip of
`_generar_mascara_prototipos` (`mask_bbox` has `bbox_h_int` rows). -/
def maskHDe (bbox : BBoxQ) (h : ℕ) : ℤ :=
  if (h : ℤ) < y1iDe bbox h + bhIntDe bbox then max 0 ((h : ℤ) - y1iDe bbox h)
  else bhIntDe bbox

/-- `mask_w` after the `if x1_int + mask_w > w` clip. -/
def maskWDe (bbox : BBoxQ) (w : ℕ) : ℤ :=
  if (w : ℤ) < x1iDe bbox w + bwIntDe bbox then max 0 ((w : ℤ) - x1iDe bbox w)
  else bwIntDe bbox

/-- The combined prototypes after the sigmoid (`mask_proto` of the source). -/
def protoSigmoide (e : ℚ → ℚ) (coeffs : List ℚ) (protos : List Mask) : Mask :=
  fun y x => sigmoidQ e (combinarPrototipos coeffs protos y x)

/-- Pasting a patch at window `[y1i, y1i+mh) × [x1i, x1i+mw)` of a zeroed
canvas (`mask_full[y1_int:y1_int+mask_h, x1_int:x1_int+mask_w] = ...`). -/
def pegarMascara (patch : Mask) (y1i x1i mh mw : ℤ) : Mask :=
  fun y x =>
    if y1i ≤ (y : ℤ) ∧ (y : ℤ) < y1i + mh ∧ x1i ≤ (x : ℤ) ∧ (x : ℤ) < x1i + mw
    then patch (y - y1i.toNat) (x - x1i.toNat) else 0

/-- The full-canvas mask of `_generar_mascara_prototipos`: the resized patch
pasted when the clipped window is nonempty (`mask_h > 0 and mask_w > 0`, the
offsets being nonnegative by construction), otherwise the canvas stays
zero. -/
def mascaraPegada (resize : Mask → ℕ → ℕ → Mask) (e : ℚ → ℚ)
    (coeffs : List ℚ) (protos : List Mask) (bbox : BBoxQ) (h w : ℕ) : Mask :=
  if 0 < maskHDe bbox h ∧ 0 < maskWDe bbox w then
    pegarMascara
      (resize (protoSigmoide e coeffs protos) (bwIntDe bbox).toNat (bhIntDe bbox).toNat)
      (y1iDe bbox h) (x1iDe bbox w) (maskHDe bbox h) (maskWDe bbox w)
  else fun _ _ => 0

/-- `_generar_mascara_prototipos`: combine the prototypes with the anchor's
coefficients, apply the sigmoid, resize to the (at least 1×1) integer bbox
size via the external `resize` (modelling `cv2.resize`, called as
`resize src wNew hNew` and read as an `hNew × wNew` patch), paste the patch
onto a zeroed full canvas clipped to the image, and return `none` — the
`return None` paths of the source — when an exception occurs (coefficient
index out of range) or the pasted mask has no pixel above `0.5`. -/
def generarMascaraPrototipos (resize : Mask → ℕ → ℕ → Mask) (e : ℚ → ℚ)
    (coeffs : List ℚ) (protos : List Mask) (bbox : BBoxQ) (h w : ℕ) : Option Mask :=
  if protos.length < coeffs.length then none
  else if 0 < activeCount h w (mascaraPegada resize e coeffs protos bbox h w)
  then some (mascaraPegada resize e coeffs protos bbox h w)
  else none

/-- The instance record built for one NMS survivor (the `segmentacion` dict of
`_procesar_salidas_yolo11_seg`): integer bbox corners, centroid as the
truncated mean of active-pixel coordinates with a box-center fallback for an
empty mask, bbox area, mask pixel count, and width/height taken from the
bbox. -/
def buildSegmentacion (confianza : ℚ) (bbox : BBoxQ) (m : Mask) (h w : ℕ) :
    Segmentacion :=
  let act := activeSet h w m
  { confianza := confianza
    x1 := pyInt bbox.bx1
    y1 := pyInt bbox.by1
    x2 := pyInt bbox.bx2
    y2 := pyInt bbox.by2
    cx := if 0 < act.card then pyInt ((∑ p ∈ act, (p.2 : ℚ)) / (act.card : ℚ))
          else pyInt ((bbox.bx1 + bbox.bx2) / 2)
    cy := if 0 < act.card then pyInt ((∑ p ∈ act, (p.1 : ℚ)) / (act.card : ℚ))
          else pyInt ((bbox.by1 + bbox.by2) / 2)
    area := pyInt ((bbox.bx2 - bbox.bx1) * (bbox.by2 - bbox.by1))
    area_mascara := act.card
    ancho_mascara := pyInt (bbox.bx2 - bbox.bx1)
    alto_mascara := pyInt (bbox.by2 - bbox.by1)
    mascara := m
    canvasH := h
    canvasW := w }

/-- The body of `_procesar_salidas_yolo11_seg` before its outer `except`:
check the output count (the `ValueError` of the source), slice the detection
tensor positionally (a leading dimension below 5 makes the slice-and-filter
code raise, modelled as `indexError`), sigmoid + strict confidence filter,
convert boxes, run the external NMS (`nmsF`, modelling `cv2.dnn.NMSBoxes`),
then for each returned index build the mask and instance, dropping the
candidate when the per-candidate `try` fails (bad index), the mask generator
returns `None`, or the quality gate rejects it. -/
def procesarInner (e : ℚ → ℚ) (resize : Mask → ℕ → ℕ → Mask)
    (nmsF : List BBoxQ → List ℚ → List ℕ) (confMin : ℚ) (cfg : FiltrosCalidad)
    (nOutputs : ℕ) (dets : NpMat) (protos : List Mask) (h w : ℕ) :
    Except PyErr (List Segmentacion) :=
  if nOutputs ≠ 2 then .error .valueError
  else if dets.rows < 5 then .error .indexError
  else
    let valid := filtrarPorConfianza confMin (decodeCandidates e dets)
    if valid.length = 0 then .ok []
    else
      let boxesXyxy := yoloToXyxy h w valid
      let indices := nmsF boxesXyxy (valid.map Candidate.conf)
      .ok (indices.filterMap (fun idx =>
        match valid.get? idx, boxesXyxy.get? idx with
        | some c, some bbox =>
          match generarMascaraPrototipos resize e c.coeffs protos bbox h w with
          | some m =>
            let s := buildSegmentacion c.conf bbox m h w
            if validarCalidadMascara cfg s then some s else none
          | none => none
        | _, _ => none))

/-- `_procesar_salidas_yolo11_seg` with its outer `try/except`: any escaping
exception is caught and the call returns the empty list. -/
def procesarSalidasYolo11Seg (e : ℚ → ℚ) (resize : Mask → ℕ → ℕ → Mask)
    (nmsF : List BBoxQ → List ℚ → List ℕ) (confMin : ℚ) (cfg : FiltrosCalidad)
    (nOutputs : ℕ) (dets : NpMat) (protos : List Mask) (h w : ℕ) :
    List Segmentacion :=
  match procesarInner e resize nmsF confMin cfg nOutputs dets protos h w with
  | .ok l => l
  | .error _ => []

/-! ### Non-maximum suppression, modelled from the spec.

`_aplicar_nms` delegates the suppression itself to the external
`cv2.dnn.NMSBoxes`; its algorithm is not repository source code.  Spec §4.3
describes it: sort candidates by confidence descending (ties broken by the
earlier anchor index, i.e. a stable sort), then keep a candidate exactly when
its IoU with every already-kept candidate is below the threshold.  The IoU
function itself is a parameter. -/

/-- A candidate as NMS sees it: a pixel box and a confidence. -/
structure NmsCand where
  box : BBoxQ
  conf : ℚ
deriving DecidableEq

/-- Modelled from the spec: stable insertion step for descending confidence —
an incoming (originally earlier) candidate goes before any candidate of equal
confidence. -/
def insertaDesc (c : NmsCand) : List NmsCand → List NmsCand
  | [] => [c]
  | d :: ds => if d.conf ≤ c.conf then c :: d :: ds else d :: insertaDesc c ds

/-- Modelled from the spec: stable sort by descending confidence. -/
def ordenaDesc : List NmsCand → List NmsCand
  | [] => []
  | c :: cs => insertaDesc c (ordenaDesc cs)

/-- Modelled from the spec: a candidate passes against the kept list when its
IoU with every kept candidate is strictly below the threshold. -/
def pasaNms (iou : BBoxQ → BBoxQ → ℚ) (thr : ℚ) (kept : List NmsCand)
    (c : NmsCand) : Prop :=
  ∀ k ∈ kept, iou k.box c.box < thr

instance (iou : BBoxQ → BBoxQ → ℚ) (thr : ℚ) (kept : List NmsCand)
    (c : NmsCand) : Decidable (pasaNms iou thr kept c) := by
  unfold pasaNms
  infer_instance

/-- Modelled from the spec: the greedy sweep, accumulating the kept list. -/
def nmsGreedyGo (iou : BBoxQ → BBoxQ → ℚ) (thr : ℚ) :
    List NmsCand → List NmsCand → List NmsCand
  | _, [] => []
  | kept, c :: cs =>
    if pasaNms iou thr kept c then c :: nmsGreedyGo iou thr (kept ++ [c]) cs
    else nmsGreedyGo iou thr kept cs

/-- Modelled from the spec: greedy NMS — stable descending sort, then the
greedy sweep starting from an empty kept list. -/
def nmsGreedy (iou : BBoxQ → BBoxQ → ℚ) (thr : ℚ) (l : List NmsCand) :
    List NmsCand :=
  nmsGreedyGo iou thr [] (ordenaDesc l)

/-! ### Mask fusion, modelled from the spec.

The fusion engine (`FusionadorMascaras` in
`modules/postprocessing/mask_fusion.py`) is imported by the test scripts but
its module is not among the sources.  Spec §4.6: for a cluster that passes
the area guard, the new mask is the pixel-wise logical union of the member
masks and `area_mask` is the popcount of that union.  Member masks are
modelled by their active-pixel sets (the pixels above the `0.5` threshold). -/

/-- Modelled from the spec: pixel-wise logical union of the member masks of a
fusion cluster. -/
def unionMascaras (ms : List (Finset (ℕ × ℕ))) : Finset (ℕ × ℕ) :=
  ms.foldr (· ∪ ·) ∅

/-- Modelled from the spec: `area_mask` of a fused instance is the popcount
of the union mask. -/
def areaFusionada (ms : List (Finset (ℕ × ℕ))) : ℕ := (unionMascaras ms).card

/-! ### Concrete inputs used to evaluate the embedded code. -/

/-- A stand-in for `np.exp` that is exact at `0` (`exp 0 = 1`), the only
point where the concrete runs below evaluate it. -/
def expUno : ℚ → ℚ := fun _ => 1

/-- A resize stand-in returning an all-ones patch. -/
def resizeUnos : Mask → ℕ → ℕ → Mask := fun _ _ _ => fun _ _ => 1

/-- A resize stand-in returning an all-zeros patch. -/
def resizeCeros : Mask → ℕ → ℕ → Mask := fun _ _ _ => fun _ _ => 0

/-- An external-NMS stand-in returning no indices. -/
def nmsVacio : List BBoxQ → List ℚ → List ℕ := fun _ _ => []

/-- An external-NMS stand-in keeping exactly the first box, as greedy NMS
does on a single-candidate list. -/
def nmsPrimero : List BBoxQ → List ℚ → List ℕ := fun _ _ => [0]

/-- The all-zero prototype mask. -/
def mascaraCero : Mask := fun _ _ => 0

/-- A permissive quality configuration (all minimums at their weakest useful
values) used to exercise accepted instances on a tiny canvas. -/
def cfgLaxa : FiltrosCalidad :=
  { min_area_mascara := 0
    min_ancho_mascara := 1
    min_alto_mascara := 1
    min_area_bbox := 0
    min_cobertura_bbox := 0
    min_densidad_mascara := 0
    max_ratio_aspecto := 100 }

/-- A detection tensor with leading dimension 7 — neither `5 + 32` for the
32 prototype masks of the model contract nor `5 + K` for any configured
`K ≠ 2` — and one anchor, all entries zero. -/
def detsDim7 : NpMat := ⟨7, 1, fun _ _ => 0⟩

/-- 32 zero prototype masks, the prototype count of the model contract. -/
def protos32 : List Mask := List.replicate 32 mascaraCero

/-- A detection tensor with the minimal leading dimension 5 (`K = 0`) and a
single anchor with raw confidence 0. -/
def detsDim5 : NpMat := ⟨5, 1, fun _ _ => 0⟩

/-- A single-anchor detection tensor (leading dimension 6, `K = 1`) whose
anchor has center `(1/2, 1/2)`, normalized size `4/5 × 4/5`, raw confidence
`0`, and mask coefficient `0` — on a `5 × 5` canvas this yields the clipped
box `(1/2, 1/2)–(4, 4)`. -/
def detsUnAncla : NpMat :=
  ⟨6, 1, fun r _ => ([1/2, 1/2, 4/5, 4/5, 0, 0] : List ℚ).getD r 0⟩

/-- The clipped pixel box produced for the anchor of `detsUnAncla` on a
`5 × 5` canvas. -/
def bboxTest : BBoxQ := ⟨1/2, 1/2, 4, 4⟩

/-- Sortedness by descending confidence, as spec §4.3 orders NMS input. -/
def SortedDesc (l : List NmsCand) : Prop := l.Pairwise (fun a b => b.conf ≤ a.conf)

/-- A configuration `c'` tightens `c`: every minimum threshold is at least as
large and the aspect-ratio maximum is at most as large. -/
def ConfigMasEstricta (c' c : FiltrosCalidad) : Prop :=
  c.min_area_mascara ≤ c'.min_area_mascara ∧
  c.min_ancho_mascara ≤ c'.min_ancho_mascara ∧
  c.min_alto_mascara ≤ c'.min_alto_mascara ∧
  c.min_area_bbox ≤ c'.min_area_bbox ∧
  c.min_cobertura_bbox ≤ c'.min_cobertura_bbox ∧
  c.min_densidad_mascara ≤ c'.min_densidad_mascara ∧
  c'.max_ratio_aspecto ≤ c.max_ratio_aspecto

instance (c' c : FiltrosCalidad) : Decidable (ConfigMasEstricta c' c) := by
  unfold ConfigMasEstricta
  infer_instance

/-- An all-zero instance record (zero-area box, empty mask). -/
def segCero : Segmentacion :=
  ⟨0, 0, 0, 0, 0, 0, 0, 0, 0, 0, 0, mascaraCero, 0, 0⟩

/-- A configuration with every minimum at zero, reaching the aspect-ratio
division even on degenerate records. -/
def cfgSinMinimos : FiltrosCalidad :=
  { min_area_mascara := 0
    min_ancho_mascara := 0
    min_alto_mascara := 0
    min_area_bbox := 0
    min_cobertura_bbox := 0
    min_densidad_mascara := 0
    max_ratio_aspecto := 10 }

/-- The default configuration with one threshold (`min_area_bbox`) raised. -/
def cfgEstricta : FiltrosCalidad := { cfgDefecto with min_area_bbox := 501 }

/-- A one-pixel mask at `(0, 0)` (as an active-pixel set). -/
def pixelA : Finset (ℕ × ℕ) := {(0, 0)}

/-- A one-pixel mask at `(1, 1)` (as an active-pixel set). -/
def pixelB : Finset (ℕ × ℕ) := {(1, 1)}

/-- A candidate whose center lies beyond the right image edge (`cx = 2` in
normalized coordinates): after conversion and clipping both `x1` and `x2`
land on `w - 1`, a degenerate box. -/
def candFueraDeRango : Candidate := ⟨2, 1/2, 1/10, 1/10, 1, []⟩

/-- The concrete mask generated for `bboxTest` on the `5 × 5` canvas with an
all-ones resize result (defaulting to the zero mask, which the successful
generation never takes). -/
def mascaraTest : Mask :=
  (generarMascaraPrototipos resizeUnos expUno [0] [mascaraCero] bboxTest 5 5).getD
    mascaraCero

/-! ### Helper lemmas -/

theorem pyInt_of_nonneg {q : ℚ} (h : 0 ≤ q) : pyInt q = ⌊q⌋ := if_pos h

theorem pyInt_nonpos {q : ℚ} (h : q ≤ 0) : pyInt q ≤ 0 := by
  unfold pyInt
  split
  · exact Int.floor_nonpos h
  · exact Int.ceil_le.mpr (by exact_mod_cast h)

theorem le_of_le_pyInt {q : ℚ} {c : ℤ} (hc : 1 ≤ c) (h : c ≤ pyInt q) : (c : ℚ) ≤ q := by
  rcases le_or_lt 0 q with hq | hq
  · rw [pyInt_of_nonneg hq] at h
    exact_mod_cast Int.le_floor.mp h
  · exfalso
    have : pyInt q ≤ 0 := pyInt_nonpos hq.le
    omega

theorem pyInt_nonneg {q : ℚ} (h : 0 ≤ q) : 0 ≤ pyInt q := by
  rw [pyInt_of_nonneg h]
  exact Int.floor_nonneg.mpr h

theorem npClip_le {v lo hi : ℚ} : npClip v lo hi ≤ hi := min_le_left _ _

theorem le_npClip {v lo hi : ℚ} (h : lo ≤ hi) : lo ≤ npClip v lo hi :=
  le_min h (le_max_left _ _)

theorem sigmoidQ_nonneg {e : ℚ → ℚ} (he : ∀ x, 0 ≤ e x) (x : ℚ) :
    0 ≤ sigmoidQ e x := by
  unfold sigmoidQ
  have := he (-x)
  positivity

theorem sigmoidQ_le_one {e : ℚ → ℚ} (he : ∀ x, 0 ≤ e x) (x : ℚ) :
    sigmoidQ e x ≤ 1 := by
  unfold sigmoidQ
  have h := he (-x)
  rw [div_le_one (by linarith)]
  linarith

/-- Unpacking `_validar_calidad_mascara` returning `True`: every threshold
inequality was satisfied. -/
theorem validar_true_umbral {cfg : FiltrosCalidad} {s : Segmentacion}
    (h : validarCalidadMascara cfg s = true) :
    cfg.min_area_bbox ≤ s.area ∧ cfg.min_area_mascara ≤ (s.area_mascara : ℤ) ∧
    cfg.min_ancho_mascara ≤ s.ancho_mascara ∧ cfg.min_alto_mascara ≤ s.alto_mascara ∧
    cfg.min_cobertura_bbox ≤ cobertura s ∧ cfg.min_densidad_mascara ≤ densidad s ∧
    ∃ r, pyDiv ((max s.ancho_mascara s.alto_mascara : ℤ) : ℚ)
        ((min s.ancho_mascara s.alto_mascara : ℤ) : ℚ) = .ok r ∧
      r ≤ cfg.max_ratio_aspecto := by
  unfold validarCalidadMascara validarInner at h
  rcases hdiv : pyDiv ((max s.ancho_mascara s.alto_mascara : ℤ) : ℚ)
      ((min s.ancho_mascara s.alto_mascara : ℤ) : ℚ) with err | ratioAspecto
  · rw [hdiv] at h
    split_ifs at h
  · rw [hdiv] at h
    split_ifs at h with h1 h2 h3 h4 h5 h6
    · dsimp only at h
      split_ifs at h
    · dsimp only at h
      have hratio : ¬ cfg.max_ratio_aspecto < ratioAspecto := by
        intro hP
        rw [if_pos hP] at h
        simp at h
      exact ⟨not_lt.mp h1, not_lt.mp h2, not_lt.mp h3, not_lt.mp h4,
        not_lt.mp h5, not_lt.mp h6, ratioAspecto, rfl, not_lt.mp hratio⟩

/-- A nonempty active set forces a nonempty canvas. -/
theorem canvas_pos_of_activeCount_pos {h w : ℕ} {m : Mask}
    (hpos : 0 < activeCount h w m) : 0 < h ∧ 0 < w := by
  unfold activeCount activeSet at hpos
  obtain ⟨p, hp⟩ := Finset.card_pos.mp hpos
  have hp' := (Finset.mem_filter.mp hp).1
  rw [Finset.mem_product] at hp'
  exact ⟨Nat.zero_lt_of_lt (Finset.mem_range.mp hp'.1),
    Nat.zero_lt_of_lt (Finset.mem_range.mp hp'.2)⟩

/-- Pixels above threshold after pasting an `mh × mw` window onto a zeroed
canvas are at most the window size. -/
theorem activeCount_pegar_le (h w : ℕ) (patch : Mask) (y1i x1i mh mw : ℤ) :
    activeCount h w (pegarMascara patch y1i x1i mh mw) ≤ mh.toNat * mw.toNat := by
  classical
  unfold activeCount activeSet pegarMascara
  have hcard :
      ((Finset.range h ×ˢ Finset.range w).filter (fun p => (1 : ℚ)/2 <
        if y1i ≤ (p.1 : ℤ) ∧ (p.1 : ℤ) < y1i + mh ∧ x1i ≤ (p.2 : ℤ) ∧ (p.2 : ℤ) < x1i + mw
        then patch (p.1 - y1i.toNat) (p.2 - x1i.toNat) else 0)).card ≤
      (Finset.range mh.toNat ×ˢ Finset.range mw.toNat).card := by
    apply Finset.card_le_card_of_injOn (fun p => (p.1 - y1i.toNat, p.2 - x1i.toNat))
    · intro p hp
      rw [Finset.mem_filter] at hp
      by_cases hc : y1i ≤ (p.1 : ℤ) ∧ (p.1 : ℤ) < y1i + mh ∧ x1i ≤ (p.2 : ℤ) ∧ (p.2 : ℤ) < x1i + mw
      · rw [Finset.mem_product, Finset.mem_range, Finset.mem_range]
        obtain ⟨hc1, hc2, hc3, hc4⟩ := hc
        constructor <;> omega
      · obtain ⟨hmem, hval⟩ := hp
        rw [if_neg hc] at hval
        norm_num at hval
    · intro p hp q hq hpq
      rw [Finset.mem_coe, Finset.mem_filter] at hp hq
      obtain ⟨hpmem, hpval⟩ := hp
      obtain ⟨hqmem, hqval⟩ := hq
      by_cases hcp : y1i ≤ (p.1 : ℤ) ∧ (p.1 : ℤ) < y1i + mh ∧ x1i ≤ (p.2 : ℤ) ∧ (p.2 : ℤ) < x1i + mw
      · by_cases hcq : y1i ≤ (q.1 : ℤ) ∧ (q.1 : ℤ) < y1i + mh ∧ x1i ≤ (q.2 : ℤ) ∧ (q.2 : ℤ) < x1i + mw
        · obtain ⟨hp1, hp2, hp3, hp4⟩ := hcp
          obtain ⟨hq1, hq2, hq3, hq4⟩ := hcq
          have h1 := congrArg Prod.fst hpq
          have h2 := congrArg Prod.snd hpq
          simp only at h1 h2
          exact Prod.ext (by omega) (by omega)
        · rw [if_neg hcq] at hqval
          norm_num at hqval
      · rw [if_neg hcp] at hpval
        norm_num at hpval
  calc ((Finset.range h ×ˢ Finset.range w).filter _).card ≤
      (Finset.range mh.toNat ×ˢ Finset.range mw.toNat).card := hcard
    _ = mh.toNat * mw.toNat := by rw [Finset.card_product, Finset.card_range, Finset.card_range]

/-- The mask of a zero canvas is inactive everywhere. -/
theorem activeCount_const_zero (h w : ℕ) :
    activeCount h w (fun _ _ => (0 : ℚ)) = 0 := by
  unfold activeCount activeSet
  rw [Finset.card_eq_zero]
  apply Finset.filter_false_of_mem
  intro p _
  norm_num

theorem maskHDe_toNat_le (bbox : BBoxQ) (h : ℕ) :
    (maskHDe bbox h).toNat ≤ (bhIntDe bbox).toNat := by
  have h1 : (1 : ℤ) ≤ bhIntDe bbox := le_max_left _ _
  unfold maskHDe
  split_ifs with hclip
  · exact Int.toNat_le_toNat (max_le (by linarith) (by linarith))
  · exact le_refl _

theorem maskWDe_toNat_le (bbox : BBoxQ) (w : ℕ) :
    (maskWDe bbox w).toNat ≤ (bwIntDe bbox).toNat := by
  have h1 : (1 : ℤ) ≤ bwIntDe bbox := le_max_left _ _
  unfold maskWDe
  split_ifs with hclip
  · exact Int.toNat_le_toNat (max_le (by linarith) (by linarith))
  · exact le_refl _

/-- The pasted full-canvas mask never has more active pixels than the
integer bbox window `bbox_h_int × bbox_w_int`. -/
theorem mascaraPegada_le (resize : Mask → ℕ → ℕ → Mask) (e : ℚ → ℚ)
    (coeffs : List ℚ) (protos : List Mask) (bbox : BBoxQ) (h w : ℕ) :
    activeCount h w (mascaraPegada resize e coeffs protos bbox h w) ≤
      (bhIntDe bbox).toNat * (bwIntDe bbox).toNat := by
  unfold mascaraPegada
  split_ifs with hwin
  · calc activeCount h w _ ≤ (maskHDe bbox h).toNat * (maskWDe bbox w).toNat :=
        activeCount_pegar_le h w _ _ _ _ _
      _ ≤ (bhIntDe bbox).toNat * (bwIntDe bbox).toNat :=
        Nat.mul_le_mul (maskHDe_toNat_le bbox h) (maskWDe_toNat_le bbox w)
  · rw [activeCount_const_zero]
    exact Nat.zero_le _

/-- A successful `_generar_mascara_prototipos` call returns the pasted mask,
which has at least one active pixel. -/
theorem generar_some_elim {rz : Mask → ℕ → ℕ → Mask} {e : ℚ → ℚ}
    {coeffs : List ℚ} {protos : List Mask} {bbox : BBoxQ} {h w : ℕ} {m : Mask}
    (hg : generarMascaraPrototipos rz e coeffs protos bbox h w = some m) :
    m = mascaraPegada rz e coeffs protos bbox h w ∧ 0 < activeCount h w m := by
  unfold generarMascaraPrototipos at hg
  split_ifs at hg with hlen hact
  obtain rfl := Option.some.inj hg
  exact ⟨rfl, hact⟩

/-- Decomposition of membership in the decode pipeline's output: every
returned record comes from a confidence-filtered candidate, a successful
mask generation on that candidate's converted box, and a passed quality
gate. -/
theorem mem_procesarSalidas {e : ℚ → ℚ} {rz : Mask → ℕ → ℕ → Mask}
    {nf : List BBoxQ → List ℚ → List ℕ} {confMin : ℚ} {cfg : FiltrosCalidad}
    {n : ℕ} {dets : NpMat} {protos : List Mask} {h w : ℕ} {s : Segmentacion}
    (hs : s ∈ procesarSalidasYolo11Seg e rz nf confMin cfg n dets protos h w) :
    ∃ c ∈ filtrarPorConfianza confMin (decodeCandidates e dets),
      ∃ m, generarMascaraPrototipos rz e c.coeffs protos (yoloToXyxyOne h w c) h w = some m ∧
        s = buildSegmentacion c.conf (yoloToXyxyOne h w c) m h w ∧
        validarCalidadMascara cfg s = true := by
  unfold procesarSalidasYolo11Seg at hs
  rcases hres : procesarInner e rz nf confMin cfg n dets protos h w with err | l
  · rw [hres] at hs
    simp at hs
  · rw [hres] at hs
    simp only [procesarInner] at hres
    split_ifs at hres with h2 h5 h0
    · obtain rfl := Except.ok.inj hres
      simp at hs
    · obtain rfl := Except.ok.inj hres
      rw [List.mem_filterMap] at hs
      obtain ⟨idx, _hidx, hf⟩ := hs
      rcases hget : (filtrarPorConfianza confMin (decodeCandidates e dets)).get? idx
        with _ | c
      · rw [hget] at hf
        simp at hf
      · rw [yoloToXyxy, List.get?_map, hget] at hf
        simp only [Option.map_some'] at hf
        rcases hgen : generarMascaraPrototipos rz e c.coeffs protos
            (yoloToXyxyOne h w c) h w with _ | m
        · rw [hgen] at hf
          simp at hf
        · rw [hgen] at hf
          dsimp only at hf
          split_ifs at hf with hval
          obtain rfl := Option.some.inj hf
          exact ⟨c, List.get?_mem hget, m, hgen, rfl, hval⟩

theorem mem_insertaDesc {x c : NmsCand} :
    ∀ {l : List NmsCand}, x ∈ insertaDesc c l ↔ x = c ∨ x ∈ l := by
  intro l
  induction l with
  | nil => simp [insertaDesc]
  | cons d ds ih =>
    unfold insertaDesc
    split_ifs with hle
    · simp [List.mem_cons]
    · rw [List.mem_cons, ih, List.mem_cons]
      tauto

theorem insertaDesc_sorted {c : NmsCand} :
    ∀ {l : List NmsCand}, SortedDesc l → SortedDesc (insertaDesc c l) := by
  intro l
  induction l with
  | nil =>
    intro _
    simp [insertaDesc, SortedDesc]
  | cons d ds ih =>
    intro hl
    rw [SortedDesc, List.pairwise_cons] at hl
    obtain ⟨hd, hds⟩ := hl
    unfold insertaDesc
    split_ifs with hle
    · rw [SortedDesc, List.pairwise_cons]
      refine ⟨?_, ?_⟩
      · intro b hb
        rcases List.mem_cons.mp hb with rfl | hb
        · exact hle
        · exact (hd b hb).trans hle
      · rw [List.pairwise_cons]
        exact ⟨hd, hds⟩
    · rw [SortedDesc, List.pairwise_cons]
      refine ⟨?_, ih hds⟩
      intro b hb
      rcases mem_insertaDesc.mp hb with rfl | hb
      · exact (lt_of_not_le hle).le
      · exact hd b hb

theorem ordenaDesc_sorted : ∀ l : List NmsCand, SortedDesc (ordenaDesc l) := by
  intro l
  induction l with
  | nil =>
    rw [ordenaDesc, SortedDesc]
    exact List.Pairwise.nil
  | cons c cs ih =>
    rw [ordenaDesc]
    exact insertaDesc_sorted ih

theorem insertaDesc_of_le {c : NmsCand} {l : List NmsCand}
    (hle : ∀ b ∈ l, b.conf ≤ c.conf) : insertaDesc c l = c :: l := by
  cases l with
  | nil => rfl
  | cons d ds =>
    unfold insertaDesc
    rw [if_pos (hle d (List.mem_cons_self d ds))]

theorem ordenaDesc_eq_self : ∀ {l : List NmsCand}, SortedDesc l → ordenaDesc l = l := by
  intro l
  induction l with
  | nil =>
    intro _
    rfl
  | cons c cs ih =>
    intro hl
    rw [SortedDesc, List.pairwise_cons] at hl
    rw [ordenaDesc, ih hl.2, insertaDesc_of_le hl.1]

theorem nmsGreedyGo_sublist (iou : BBoxQ → BBoxQ → ℚ) (thr : ℚ) :
    ∀ (s kept : List NmsCand), List.Sublist (nmsGreedyGo iou thr kept s) s := by
  intro s
  induction s with
  | nil =>
    intro kept
    exact List.Sublist.refl _
  | cons c cs ih =>
    intro kept
    rw [nmsGreedyGo]
    split_ifs
    · exact (ih (kept ++ [c])).cons₂ c
    · exact (ih kept).cons c

theorem nmsGreedyGo_idem (iou : BBoxQ → BBoxQ → ℚ) (thr : ℚ) :
    ∀ (s kept : List NmsCand),
      nmsGreedyGo iou thr kept (nmsGreedyGo iou thr kept s) =
        nmsGreedyGo iou thr kept s := by
  intro s
  induction s with
  | nil =>
    intro kept
    rfl
  | cons c cs ih =>
    intro kept
    by_cases hp : pasaNms iou thr kept c
    · simp only [nmsGreedyGo, if_pos hp]
      rw [ih]
    · simp only [nmsGreedyGo, if_neg hp]
      exact ih kept

theorem subset_unionMascaras {m : Finset (ℕ × ℕ)} :
    ∀ {ms : List (Finset (ℕ × ℕ))}, m ∈ ms → m ⊆ unionMascaras ms := by
  intro ms
  induction ms with
  | nil =>
    intro hm
    exact absurd hm (List.not_mem_nil m)
  | cons a l ih =>
    intro hm
    rcases List.mem_cons.mp hm with rfl | hm
    · exact Finset.subset_union_left
    · exact (ih hm).trans Finset.subset_union_right

theorem unionMascaras_card_le :
    ∀ ms : List (Finset (ℕ × ℕ)),
      (unionMascaras ms).card ≤ (ms.map Finset.card).sum := by
  intro ms
  induction ms with
  | nil => simp [unionMascaras]
  | cons a l ih =>
    rw [List.map_cons, List.sum_cons]
    calc (unionMascaras (a :: l)).card ≤ a.card + (unionMascaras l).card :=
        Finset.card_union_le _ _
      _ ≤ a.card + (l.map Finset.card).sum := Nat.add_le_add_left ih _

theorem unionMascaras_card_eq_disjoint :
    ∀ ms : List (Finset (ℕ × ℕ)),
      (unionMascaras ms).card = (ms.map Finset.card).sum →
      ms.Pairwise Disjoint := by
  intro ms
  induction ms with
  | nil =>
    intro _
    exact List.Pairwise.nil
  | cons a l ih =>
    intro heq
    rw [List.map_cons, List.sum_cons] at heq
    have hU := unionMascaras_card_le l
    have h1 : (unionMascaras (a :: l)).card ≤ a.card + (unionMascaras l).card :=
      Finset.card_union_le _ _
    have h2 : a.card + (unionMascaras l).card ≤ a.card + (l.map Finset.card).sum :=
      Nat.add_le_add_left hU _
    have hcardU : (unionMascaras l).card = (l.map Finset.card).sum := by omega
    have hcab : (unionMascaras (a :: l)).card = a.card + (unionMascaras l).card := by
      omega
    have hinter : (a ∩ unionMascaras l).card = 0 := by
      have := Finset.card_union_add_card_inter a (unionMascaras l)
      have hab : unionMascaras (a :: l) = a ∪ unionMascaras l := rfl
      rw [hab] at hcab
      omega
    have hdisj : Disjoint a (unionMascaras l) := by
      rw [Finset.disjoint_iff_inter_eq_empty]
      exact Finset.card_eq_zero.mp hinter
    rw [List.pairwise_cons]
    refine ⟨?_, ih hcardU⟩
    intro b hb
    exact hdisj.mono_right (subset_unionMascaras hb)

/-- A record accepted under a tighter configuration is accepted under a
looser one: all threshold comparisons are pointwise implied. -/
theorem validar_mono {c' c : FiltrosCalidad} {s : Segmentacion}
    (hm : ConfigMasEstricta c' c) (h : validarCalidadMascara c' s = true) :
    validarCalidadMascara c s = true := by
  obtain ⟨h1, h2, h3, h4, h5, h6, h7⟩ := hm
  obtain ⟨ha, hb, hc, hd, he, hf, r, hr, hrle⟩ := validar_true_umbral h
  have hinner : validarInner c s = .ok true := by
    unfold validarInner
    rw [hr]
    dsimp only
    split_ifs with g1 g2 g3 g4 g5 g6 g7
    · exact absurd g1 (not_lt.mpr (h4.trans ha))
    · exact absurd g2 (not_lt.mpr (h1.trans hb))
    · exact absurd g3 (not_lt.mpr (h2.trans hc))
    · exact absurd g4 (not_lt.mpr (h3.trans hd))
    · exact absurd g5 (not_lt.mpr (h5.trans he))
    · exact absurd g6 (not_lt.mpr (hrle.trans h7))
    · exact absurd g7 (not_lt.mpr (h6.trans hf))
    · rfl
  unfold validarCalidadMascara
  rw [hinner]

theorem floor_mul_floor_le {a b : ℚ} (ha : 0 ≤ a) (hb : 0 ≤ b) :
    ⌊a⌋ * ⌊b⌋ ≤ ⌊a * b⌋ := by
  rw [Int.le_floor]
  push_cast
  exact mul_le_mul (Int.floor_le a) (Int.floor_le b)
    (by exact_mod_cast Int.floor_nonneg.mpr hb) ha

theorem headI_mem_self {α : Type} [Inhabited α] {l : List α} (h : l ≠ []) :
    l.headI ∈ l := by
  cases l with
  | nil => exact absurd rfl h
  | cons a t => exact List.mem_cons_self a t

/-- All four clipped coordinates of a converted box lie in `[0, dim - 1]`
on a nonempty canvas. -/
theorem yolo_clip_bounds (h w : ℕ) (c : Candidate) (hh : 0 < h) (hw : 0 < w) :
    (0 ≤ (yoloToXyxyOne h w c).bx1 ∧ (yoloToXyxyOne h w c).bx1 ≤ (w : ℚ) - 1) ∧
    (0 ≤ (yoloToXyxyOne h w c).bx2 ∧ (yoloToXyxyOne h w c).bx2 ≤ (w : ℚ) - 1) ∧
    (0 ≤ (yoloToXyxyOne h w c).by1 ∧ (yoloToXyxyOne h w c).by1 ≤ (h : ℚ) - 1) ∧
    (0 ≤ (yoloToXyxyOne h w c).by2 ∧ (yoloToXyxyOne h w c).by2 ≤ (h : ℚ) - 1) := by
  have hw1 : (0 : ℚ) ≤ (w : ℚ) - 1 := by
    have : (1 : ℚ) ≤ (w : ℚ) := by exact_mod_cast hw
    linarith
  have hh1 : (0 : ℚ) ≤ (h : ℚ) - 1 := by
    have : (1 : ℚ) ≤ (h : ℚ) := by exact_mod_cast hh
    linarith
  exact ⟨⟨le_npClip hw1, npClip_le⟩, ⟨le_npClip hw1, npClip_le⟩,
    ⟨le_npClip hh1, npClip_le⟩, ⟨le_npClip hh1, npClip_le⟩⟩

/-- A coordinate clipped into `[0, dim-1]` truncates (floors) below `dim`. -/
theorem pyInt_clip_range {q : ℚ} {d : ℕ} (h0 : 0 ≤ q) (h1 : q ≤ (d : ℚ) - 1) :
    0 ≤ pyInt q ∧ pyInt q < (d : ℤ) := by
  rw [pyInt_of_nonneg h0]
  refine ⟨Int.floor_nonneg.mpr h0, ?_⟩
  have : ⌊q⌋ ≤ ⌊(((d : ℤ) - 1 : ℤ) : ℚ)⌋ := Int.floor_le_floor (by push_cast; linarith)
  rw [Int.floor_intCast] at this
  omega

/-! ### The claims -/

/-- C8: greedy NMS — sort by descending confidence, then keep a candidate
iff its IoU with every already-kept candidate is strictly below the
threshold — is idempotent: applying `nmsGreedy` to its own output keeps
every candidate, changing nothing (for any IoU function and threshold). -/
theorem C8_nms_idempotente (iou : BBoxQ → BBoxQ → ℚ) (thr : ℚ)
    (l : List NmsCand) :
    nmsGreedy iou thr (nmsGreedy iou thr l) = nmsGreedy iou thr l := by
  unfold nmsGreedy
  rw [ordenaDesc_eq_self ((ordenaDesc_sorted l).sublist
    (nmsGreedyGo_sublist iou thr (ordenaDesc l) []))]
  exact nmsGreedyGo_idem iou thr (ordenaDesc l) []

/-- C9: fusion union bound — for a cluster of two or more member masks, the
popcount of the pixel-wise union is at least each member's popcount and at
most the sum of the members' popcounts, with equality at the upper bound
only when the member masks are pairwise disjoint. -/
theorem C9_cota_union_fusion (ms : List (Finset (ℕ × ℕ)))
    (h2 : 2 ≤ ms.length) :
    (∀ m ∈ ms, m.card ≤ areaFusionada ms) ∧
    areaFusionada ms ≤ (ms.map Finset.card).sum ∧
    (areaFusionada ms = (ms.map Finset.card).sum → ms.Pairwise Disjoint) := by
  clear h2
  refine ⟨?_, unionMascaras_card_le ms, unionMascaras_card_eq_disjoint ms⟩
  intro m hm
  exact Finset.card_le_card (subset_unionMascaras hm)

/-- Witness for C9 on the concrete two-member cluster `[pixelA, pixelB]`. -/
theorem C9_cota_union_fusion_witness :
    pixelA.card ≤ areaFusionada [pixelA, pixelB] ∧
    areaFusionada [pixelA, pixelB] ≤ ([pixelA, pixelB].map Finset.card).sum :=
  ⟨(C9_cota_union_fusion [pixelA, pixelB] (by decide)).1 pixelA
      (List.mem_cons_self _ _),
    (C9_cota_union_fusion [pixelA, pixelB] (by decide)).2.1⟩

/-- C10: the quality gate is total and never raises — it always returns a
boolean, accepting exactly when its checks all pass without an internal
exception; the coverage and density ratios are guarded against zero
denominators (evaluating to 0), a zero-area box leads to rejection whenever
the coverage minimum is positive, and any internal exception yields `False`
rather than a crash. -/
theorem C10_gate_total (cfg : FiltrosCalidad) (s : Segmentacion) :
    (validarCalidadMascara cfg s = true ↔ validarInner cfg s = .ok true) ∧
    (∀ err, validarInner cfg s = .error err → validarCalidadMascara cfg s = false) ∧
    (s.area ≤ 0 → cobertura s = 0) ∧
    (areaRegion s = 0 → densidad s = 0) ∧
    (0 < cfg.min_cobertura_bbox → s.area ≤ 0 →
      validarCalidadMascara cfg s = false) := by
  refine ⟨?_, ?_, ?_, ?_, ?_⟩
  · unfold validarCalidadMascara
    rcases hres : validarInner cfg s with err | b
    · simp
    · cases b <;> simp
  · intro err herr
    unfold validarCalidadMascara
    rw [herr]
  · intro hle
    unfold cobertura
    rw [if_neg (by omega)]
  · intro h0
    unfold densidad
    rw [if_neg (by omega)]
  · intro hpos hle
    cases hb : validarCalidadMascara cfg s with
    | false => rfl
    | true =>
      obtain ⟨_, _, _, _, hcob, _⟩ := validar_true_umbral hb
      have hc0 : cobertura s = 0 := by
        unfold cobertura
        rw [if_neg (by omega)]
      rw [hc0] at hcob
      exact absurd hpos (not_lt.mpr hcob)

/-- Witness for C10 on concrete records: rejection of the zero record under
the default configuration (zero-area box, positive coverage minimum), and
rejection — not a crash — when the aspect-ratio division raises on a
degenerate record under an all-zero-minimum configuration. -/
theorem C10_gate_total_witness :
    validarCalidadMascara cfgDefecto segCero = false ∧
    validarCalidadMascara cfgSinMinimos segCero = false ∧
    cobertura segCero = 0 ∧ densidad segCero = 0 :=
  ⟨(C10_gate_total cfgDefecto segCero).2.2.2.2 (by with_unfolding_all decide)
      (by with_unfolding_all decide),
    (C10_gate_total cfgSinMinimos segCero).2.1 .zeroDivision
      (by with_unfolding_all rfl),
    (C10_gate_total cfgDefecto segCero).2.2.1 (by with_unfolding_all decide),
    (C10_gate_total cfgDefecto segCero).2.2.2.1 (by with_unfolding_all decide)⟩

/-- C6: quality-gate monotonicity — tightening the configuration (raising
any of the minimum thresholds and/or lowering the aspect-ratio maximum)
never increases the number of records the gate accepts on the same input
list. -/
theorem C6_gate_monotonia (c' c : FiltrosCalidad) (l : List Segmentacion)
    (hm : ConfigMasEstricta c' c) :
    l.countP (fun s => validarCalidadMascara c' s) ≤
      l.countP (fun s => validarCalidadMascara c s) :=
  List.countP_mono_left (fun s _ hs => validar_mono hm hs)

/-- Witness for C6: raising `min_bbox_area` from 500 to 501 on a concrete
one-record list. -/
theorem C6_gate_monotonia_witness :
    [segCero].countP (fun s => validarCalidadMascara cfgEstricta s) ≤
      [segCero].countP (fun s => validarCalidadMascara cfgDefecto s) :=
  C6_gate_monotonia cfgEstricta cfgDefecto [segCero] (by with_unfolding_all decide)

/-- C4 counterexample: with the threshold at 1/2 and an anchor whose sigmoid
confidence is exactly 1/2 (raw confidence 0), the confidence filter drops
the anchor — the source compares with strict `>` — contradicting the claim
that an anchor exactly at `confidence_min` is kept. -/
theorem C4_contraejemplo_igualdad :
    sigmoidQ expUno (detsDim5.val 4 0) = 1/2 ∧
    (decodeCandidates expUno detsDim5).length = 1 ∧
    filtrarPorConfianza (1/2) (decodeCandidates expUno detsDim5) = [] := by
  refine ⟨by with_unfolding_all decide, by with_unfolding_all decide,
    by with_unfolding_all decide⟩

/-- C4 (amended): the Output Decoder applies the logistic sigmoid to each
anchor's raw confidence, and the filter keeps exactly the anchors whose
sigmoid confidence is strictly greater than `confidence_min`; an anchor
exactly at the threshold is dropped. -/
theorem C4_filtro_estricto (e : ℚ → ℚ) (confMin : ℚ) (dets : NpMat)
    (c : Candidate) :
    ((decodeCandidates e dets).map Candidate.conf =
      (List.range dets.cols).map (fun i => sigmoidQ e (dets.val 4 i))) ∧
    (c ∈ filtrarPorConfianza confMin (decodeCandidates e dets) ↔
      c ∈ decodeCandidates e dets ∧ confMin < c.conf) := by
  constructor
  · unfold decodeCandidates
    rw [List.map_map]
    rfl
  · unfold filtrarPorConfianza
    rw [List.mem_filter]
    simp

/-- C2 counterexample: a candidate lying beyond the image edge produces a
degenerate clipped box (`x1 = x2 = 639` on a 640-wide canvas), and the box
converter does NOT drop it: its output still contains the degenerate box,
which therefore reaches NMS. -/
theorem C2_contraejemplo_degenerado :
    ¬ (∀ b ∈ yoloToXyxy 640 640 [candFueraDeRango],
        b.bx1 < b.bx2 ∧ b.by1 < b.by2) := by
  with_unfolding_all decide

/-- C2 (amended): the box converter is length-preserving (it never drops a
candidate, degenerate or not, before NMS); an instance built over a
degenerate box (`x2 ≤ x1`) is instead rejected by the quality gate whenever
the configured width minimum is at least one pixel. -/
theorem C2_degenerados_al_gate (h w : ℕ) (cands : List Candidate)
    (cfg : FiltrosCalidad) (conf : ℚ) (bbox : BBoxQ) (m : Mask) (hh ww : ℕ)
    (hancho : 1 ≤ cfg.min_ancho_mascara) (hdeg : bbox.bx2 ≤ bbox.bx1) :
    (yoloToXyxy h w cands).length = cands.length ∧
    validarCalidadMascara cfg (buildSegmentacion conf bbox m hh ww) = false := by
  constructor
  · unfold yoloToXyxy
    exact List.length_map _ _
  · cases hb : validarCalidadMascara cfg (buildSegmentacion conf bbox m hh ww) with
    | false => rfl
    | true =>
      have hancho0 : pyInt (bbox.bx2 - bbox.bx1) ≤ 0 := pyInt_nonpos (by linarith)
      obtain ⟨_, _, hc, _⟩ := validar_true_umbral hb
      have heq : (buildSegmentacion conf bbox m hh ww).ancho_mascara =
          pyInt (bbox.bx2 - bbox.bx1) := rfl
      rw [heq] at hc
      omega

/-- Witness for C2 (amended) at the concrete degenerate box produced by
`candFueraDeRango` on a 640×640 canvas. -/
theorem C2_degenerados_al_gate_witness :
    (yoloToXyxy 640 640 [candFueraDeRango]).length = 1 ∧
    validarCalidadMascara cfgDefecto
      (buildSegmentacion 1 (yoloToXyxyOne 640 640 candFueraDeRango)
        mascaraCero 5 5) = false :=
  C2_degenerados_al_gate 640 640 [candFueraDeRango] cfgDefecto 1
    (yoloToXyxyOne 640 640 candFueraDeRango) mascaraCero 5 5
    (by with_unfolding_all decide) (by with_unfolding_all decide)

/-- C1 counterexample: for a detection tensor whose leading dimension (7) is
not `5 + K` for the 32 configured prototype masks, the decode does not fail
with a typed `MalformedInput`-style error: the call returns normally (here
`.ok []` internally, `[]` at the caller), processing the tensor
positionally. -/
theorem C1_contraejemplo_sin_error :
    detsDim7.rows ≠ 5 + protos32.length ∧
    procesarInner expUno resizeUnos nmsVacio (3/5) cfgDefecto 2 detsDim7
      protos32 640 640 = .ok [] ∧
    procesarSalidasYolo11Seg expUno resizeUnos nmsVacio (3/5) cfgDefecto 2
      detsDim7 protos32 640 640 = [] := by
  refine ⟨by decide, by with_unfolding_all rfl, by with_unfolding_all rfl⟩

/-- C1 (amended): the decode validates only the output count — with ≠ 2
outputs an internal `ValueError` is raised (and the outer handler turns any
internal error into an empty result list, never a typed error surfaced to
the caller); a detection tensor with at least 5 rows is processed
positionally, returning normally with no comparison of its leading dimension
against `5 + K` and no prototype-shape check. -/
theorem C1_decodifica_sin_contrato (e : ℚ → ℚ) (rz : Mask → ℕ → ℕ → Mask)
    (nf : List BBoxQ → List ℚ → List ℕ) (confMin : ℚ) (cfg : FiltrosCalidad)
    (n : ℕ) (dets : NpMat) (protos : List Mask) (h w : ℕ) :
    (n ≠ 2 →
      procesarInner e rz nf confMin cfg n dets protos h w = .error .valueError) ∧
    (n = 2 → 5 ≤ dets.rows →
      (procesarInner e rz nf confMin cfg n dets protos h w).isOk = true) ∧
    (∀ err, procesarInner e rz nf confMin cfg n dets protos h w = .error err →
      procesarSalidasYolo11Seg e rz nf confMin cfg n dets protos h w = []) := by
  refine ⟨?_, ?_, ?_⟩
  · intro hn
    unfold procesarInner
    rw [if_pos hn]
  · intro hn hrows
    unfold procesarInner
    rw [if_neg (by omega : ¬ n ≠ 2), if_neg (by omega : ¬ dets.rows < 5)]
    dsimp only
    split_ifs <;> rfl
  · intro err herr
    unfold procesarSalidasYolo11Seg
    rw [herr]

/-- Witness for C1 (amended): three outputs give the caught `ValueError`
path and an empty result; two outputs with the 7-row tensor return
normally. -/
theorem C1_decodifica_sin_contrato_witness :
    procesarInner expUno resizeUnos nmsVacio (3/5) cfgDefecto 3 detsDim7
      protos32 640 640 = .error .valueError ∧
    procesarSalidasYolo11Seg expUno resizeUnos nmsVacio (3/5) cfgDefecto 3
      detsDim7 protos32 640 640 = [] ∧
    (procesarInner expUno resizeUnos nmsVacio (3/5) cfgDefecto 2 detsDim7
      protos32 640 640).isOk = true :=
  ⟨(C1_decodifica_sin_contrato expUno resizeUnos nmsVacio (3/5) cfgDefecto 3
      detsDim7 protos32 640 640).1 (by decide),
    (C1_decodifica_sin_contrato expUno resizeUnos nmsVacio (3/5) cfgDefecto 3
      detsDim7 protos32 640 640).2.2 .valueError
      ((C1_decodifica_sin_contrato expUno resizeUnos nmsVacio (3/5) cfgDefecto 3
        detsDim7 protos32 640 640).1 (by decide)),
    (C1_decodifica_sin_contrato expUno resizeUnos nmsVacio (3/5) cfgDefecto 2
      detsDim7 protos32 640 640).2.1 rfl (by decide)⟩

/-- C7 counterexample: a surviving candidate (it passes the confidence
filter and is kept by NMS) whose reconstructed mask has zero pixels above
the 0.5 threshold is dropped by the mask generator (`None`), so the pipeline
returns no instance for it — it does NOT fall back to a box-center
centroid. -/
theorem C7_contraejemplo_mascara_vacia :
    (filtrarPorConfianza (1/4) (decodeCandidates expUno detsUnAncla)).length = 1 ∧
    (decodeCandidates expUno detsUnAncla).map (yoloToXyxyOne 5 5) = [bboxTest] ∧
    generarMascaraPrototipos resizeCeros expUno [0] [mascaraCero] bboxTest 5 5 =
      none ∧
    procesarSalidasYolo11Seg expUno resizeCeros nmsPrimero (1/4) cfgLaxa 2
      detsUnAncla [mascaraCero] 5 5 = [] := by
  refine ⟨by with_unfolding_all decide, by with_unfolding_all decide,
    by with_unfolding_all rfl, by with_unfolding_all rfl⟩

/-- C7 (amended): masks are thresholded at 0.5, and the centroid of every
built instance is the truncated mean of its active-pixel coordinates; a
generated mask always has at least one active pixel — a zero-active-pixel
mask makes the generator return `None` and the candidate is dropped, so the
builder's box-center fallback is unreachable for generated masks. -/
theorem C7_centroide_media_activos (rz : Mask → ℕ → ℕ → Mask) (e : ℚ → ℚ)
    (coeffs : List ℚ) (protos : List Mask) (bbox : BBoxQ) (h w : ℕ) (m : Mask)
    (conf : ℚ)
    (hg : generarMascaraPrototipos rz e coeffs protos bbox h w = some m) :
    0 < activeCount h w m ∧
    (buildSegmentacion conf bbox m h w).area_mascara = activeCount h w m ∧
    (buildSegmentacion conf bbox m h w).cx =
      pyInt ((∑ p ∈ activeSet h w m, (p.2 : ℚ)) / (activeCount h w m : ℚ)) ∧
    (buildSegmentacion conf bbox m h w).cy =
      pyInt ((∑ p ∈ activeSet h w m, (p.1 : ℚ)) / (activeCount h w m : ℚ)) := by
  have hpos := (generar_some_elim hg).2
  have hpos' : 0 < (activeSet h w m).card := hpos
  refine ⟨hpos, rfl, ?_, ?_⟩
  · show (if 0 < (activeSet h w m).card then _ else _) = _
    rw [if_pos hpos']
    rfl
  · show (if 0 < (activeSet h w m).card then _ else _) = _
    rw [if_pos hpos']
    rfl

/-- Witness for C7 (amended) on the concrete generated `5 × 5` mask. -/
theorem C7_centroide_media_activos_witness :
    0 < activeCount 5 5 mascaraTest ∧
    (buildSegmentacion (1/2) bboxTest mascaraTest 5 5).cx =
      pyInt ((∑ p ∈ activeSet 5 5 mascaraTest, (p.2 : ℚ)) /
        (activeCount 5 5 mascaraTest : ℚ)) :=
  ⟨(C7_centroide_media_activos resizeUnos expUno [0] [mascaraCero] bboxTest 5 5
      mascaraTest (1/2) (by with_unfolding_all rfl)).1,
    (C7_centroide_media_activos resizeUnos expUno [0] [mascaraCero] bboxTest 5 5
      mascaraTest (1/2) (by with_unfolding_all rfl)).2.2.1⟩

/-- C3: for every accepted instance in the decode pipeline's output — under
any configuration whose width and height minimums are at least one pixel,
as the engine's fixed configuration (30/30) is — the mask pixel count never
exceeds the bbox pixel area: the mask is generated strictly within the
candidate's integer box window and then pasted onto the canvas. -/
theorem C3_area_mascara_le_bbox (e : ℚ → ℚ) (rz : Mask → ℕ → ℕ → Mask)
    (nf : List BBoxQ → List ℚ → List ℕ) (confMin : ℚ) (cfg : FiltrosCalidad)
    (n : ℕ) (dets : NpMat) (protos : List Mask) (h w : ℕ) (s : Segmentacion)
    (hancho : 1 ≤ cfg.min_ancho_mascara) (halto : 1 ≤ cfg.min_alto_mascara)
    (hs : s ∈ procesarSalidasYolo11Seg e rz nf confMin cfg n dets protos h w) :
    (s.area_mascara : ℤ) ≤ s.area := by
  obtain ⟨c, hc, m, hgen, rfl, hval⟩ := mem_procesarSalidas hs
  obtain ⟨_, _, hancho', halto', _⟩ := validar_true_umbral hval
  obtain ⟨hmeq, hpos⟩ := generar_some_elim hgen
  set bbox := yoloToXyxyOne h w c
  have hanchoInt : 1 ≤ pyInt (bbox.bx2 - bbox.bx1) := hancho.trans hancho'
  have haltoInt : 1 ≤ pyInt (bbox.by2 - bbox.by1) := halto.trans halto'
  have hwq : (1 : ℚ) ≤ bbox.bx2 - bbox.bx1 := by
    have := le_of_le_pyInt (le_refl (1 : ℤ)) hanchoInt
    exact_mod_cast this
  have hhq : (1 : ℚ) ≤ bbox.by2 - bbox.by1 := by
    have := le_of_le_pyInt (le_refl (1 : ℤ)) haltoInt
    exact_mod_cast this
  have hcount : activeCount h w m ≤ (bhIntDe bbox).toNat * (bwIntDe bbox).toNat := by
    rw [hmeq]
    exact mascaraPegada_le rz e c.coeffs protos bbox h w
  have hbh : bhIntDe bbox = ⌊bbox.by2 - bbox.by1⌋ := by
    unfold bhIntDe
    rw [pyInt_of_nonneg (by linarith)] at haltoInt ⊢
    exact max_eq_right haltoInt
  have hbw : bwIntDe bbox = ⌊bbox.bx2 - bbox.bx1⌋ := by
    unfold bwIntDe
    rw [pyInt_of_nonneg (by linarith)] at hanchoInt ⊢
    exact max_eq_right hanchoInt
  have hfl : ⌊bbox.bx2 - bbox.bx1⌋ * ⌊bbox.by2 - bbox.by1⌋ ≤
      ⌊(bbox.bx2 - bbox.bx1) * (bbox.by2 - bbox.by1)⌋ :=
    floor_mul_floor_le (by linarith) (by linarith)
  have hbhpos : 0 ≤ bhIntDe bbox := le_trans (by norm_num) (le_max_left 1 _)
  have hbwpos : 0 ≤ bwIntDe bbox := le_trans (by norm_num) (le_max_left 1 _)
  have hcast : (activeCount h w m : ℤ) ≤ bhIntDe bbox * bwIntDe bbox := by
    calc (activeCount h w m : ℤ) ≤
        (((bhIntDe bbox).toNat * (bwIntDe bbox).toNat : ℕ) : ℤ) := by
          exact_mod_cast hcount
      _ = ((bhIntDe bbox).toNat : ℤ) * ((bwIntDe bbox).toNat : ℤ) := by push_cast; ring
      _ = bhIntDe bbox * bwIntDe bbox := by
          rw [Int.toNat_of_nonneg hbhpos, Int.toNat_of_nonneg hbwpos]
  rw [hbh, hbw] at hcast
  have hfinal : (activeCount h w m : ℤ) ≤
      ⌊(bbox.bx2 - bbox.bx1) * (bbox.by2 - bbox.by1)⌋ := by
    calc (activeCount h w m : ℤ) ≤ ⌊bbox.by2 - bbox.by1⌋ * ⌊bbox.bx2 - bbox.bx1⌋ :=
        hcast
      _ = ⌊bbox.bx2 - bbox.bx1⌋ * ⌊bbox.by2 - bbox.by1⌋ := mul_comm _ _
      _ ≤ ⌊(bbox.bx2 - bbox.bx1) * (bbox.by2 - bbox.by1)⌋ := hfl
  show ((activeCount h w m : ℕ) : ℤ) ≤
    pyInt ((bbox.bx2 - bbox.bx1) * (bbox.by2 - bbox.by1))
  rw [pyInt_of_nonneg (mul_nonneg (by linarith) (by linarith))]
  exact hfinal

/-- Witness for C3 on the concrete `5 × 5` pipeline run that accepts one
instance (whose mask has 9 active pixels inside a 12-pixel box). -/
theorem C3_area_mascara_le_bbox_witness :
    (((procesarSalidasYolo11Seg expUno resizeUnos nmsPrimero (1/4) cfgLaxa 2
        detsUnAncla [mascaraCero] 5 5).headI.area_mascara : ℤ) ≤
      (procesarSalidasYolo11Seg expUno resizeUnos nmsPrimero (1/4) cfgLaxa 2
        detsUnAncla [mascaraCero] 5 5).headI.area) :=
  C3_area_mascara_le_bbox expUno resizeUnos nmsPrimero (1/4) cfgLaxa 2
    detsUnAncla [mascaraCero] 5 5 _ (by with_unfolding_all decide)
    (by with_unfolding_all decide)
    (headI_mem_self (by
      intro hnil
      have : (procesarSalidasYolo11Seg expUno resizeUnos nmsPrimero (1/4) cfgLaxa 2
          detsUnAncla [mascaraCero] 5 5).length = 1 := by with_unfolding_all decide
      rw [hnil] at this
      simp at this))

/-- C5: every instance the decode pipeline returns (for a nonnegative
external exponential, and width/height minimums of at least one pixel as
configured) has confidence in `[0, 1]` and an integer box strictly inside
the canvas: `0 ≤ x1 < x2 < w` and `0 ≤ y1 < y2 < h`. -/
theorem C5_instancias_validas (e : ℚ → ℚ) (rz : Mask → ℕ → ℕ → Mask)
    (nf : List BBoxQ → List ℚ → List ℕ) (confMin : ℚ) (cfg : FiltrosCalidad)
    (n : ℕ) (dets : NpMat) (protos : List Mask) (h w : ℕ) (s : Segmentacion)
    (he : ∀ x, 0 ≤ e x)
    (hancho : 1 ≤ cfg.min_ancho_mascara) (halto : 1 ≤ cfg.min_alto_mascara)
    (hs : s ∈ procesarSalidasYolo11Seg e rz nf confMin cfg n dets protos h w) :
    (0 ≤ s.confianza ∧ s.confianza ≤ 1) ∧
    (0 ≤ s.x1 ∧ s.x1 < s.x2 ∧ s.x2 < (w : ℤ)) ∧
    (0 ≤ s.y1 ∧ s.y1 < s.y2 ∧ s.y2 < (h : ℤ)) := by
  obtain ⟨c, hc, m, hgen, rfl, hval⟩ := mem_procesarSalidas hs
  obtain ⟨_, _, hancho', halto', _⟩ := validar_true_umbral hval
  obtain ⟨hh, hw⟩ := canvas_pos_of_activeCount_pos (generar_some_elim hgen).2
  obtain ⟨⟨hx1a, hx1b⟩, ⟨hx2a, hx2b⟩, ⟨hy1a, hy1b⟩, ⟨hy2a, hy2b⟩⟩ :=
    yolo_clip_bounds h w c hh hw
  have hconf : (buildSegmentacion c.conf (yoloToXyxyOne h w c) m h w).confianza = c.conf := rfl
  have hcmem : c ∈ decodeCandidates e dets := by
    unfold filtrarPorConfianza at hc
    exact (List.mem_filter.mp hc).1
  have hcconf : ∃ i, c.conf = sigmoidQ e (dets.val 4 i) := by
    unfold decodeCandidates at hcmem
    rw [List.mem_map] at hcmem
    obtain ⟨i, _, hceq⟩ := hcmem
    exact ⟨i, by rw [← hceq]⟩
  obtain ⟨i, hci⟩ := hcconf
  have hx1 : (buildSegmentacion c.conf (yoloToXyxyOne h w c) m h w).x1 = pyInt (yoloToXyxyOne h w c).bx1 := rfl
  have hx2 : (buildSegmentacion c.conf (yoloToXyxyOne h w c) m h w).x2 = pyInt (yoloToXyxyOne h w c).bx2 := rfl
  have hy1 : (buildSegmentacion c.conf (yoloToXyxyOne h w c) m h w).y1 = pyInt (yoloToXyxyOne h w c).by1 := rfl
  have hy2 : (buildSegmentacion c.conf (yoloToXyxyOne h w c) m h w).y2 = pyInt (yoloToXyxyOne h w c).by2 := rfl
  have hanchoInt : 1 ≤ pyInt ((yoloToXyxyOne h w c).bx2 - (yoloToXyxyOne h w c).bx1) := hancho.trans hancho'
  have haltoInt : 1 ≤ pyInt ((yoloToXyxyOne h w c).by2 - (yoloToXyxyOne h w c).by1) := halto.trans halto'
  have hwq : (1 : ℚ) ≤ (yoloToXyxyOne h w c).bx2 - (yoloToXyxyOne h w c).bx1 := by
    have := le_of_le_pyInt (le_refl (1 : ℤ)) hanchoInt
    exact_mod_cast this
  have hhq : (1 : ℚ) ≤ (yoloToXyxyOne h w c).by2 - (yoloToXyxyOne h w c).by1 := by
    have := le_of_le_pyInt (le_refl (1 : ℤ)) haltoInt
    exact_mod_cast this
  refine ⟨?_, ?_, ?_⟩
  · rw [hconf, hci]
    exact ⟨sigmoidQ_nonneg he _, sigmoidQ_le_one he _⟩
  · rw [hx1, hx2]
    obtain ⟨h1a, _⟩ := pyInt_clip_range hx1a hx1b
    obtain ⟨_, h2b⟩ := pyInt_clip_range hx2a hx2b
    refine ⟨h1a, ?_, h2b⟩
    rw [pyInt_of_nonneg hx1a, pyInt_of_nonneg hx2a]
    have hmono : ⌊(yoloToXyxyOne h w c).bx1 + 1⌋ ≤ ⌊(yoloToXyxyOne h w c).bx2⌋ := Int.floor_le_floor (by linarith)
    rw [Int.floor_add_one] at hmono
    omega
  · rw [hy1, hy2]
    obtain ⟨h1a, _⟩ := pyInt_clip_range hy1a hy1b
    obtain ⟨_, h2b⟩ := pyInt_clip_range hy2a hy2b
    refine ⟨h1a, ?_, h2b⟩
    rw [pyInt_of_nonneg hy1a, pyInt_of_nonneg hy2a]
    have hmono : ⌊(yoloToXyxyOne h w c).by1 + 1⌋ ≤ ⌊(yoloToXyxyOne h w c).by2⌋ := Int.floor_le_floor (by linarith)
    rw [Int.floor_add_one] at hmono
    omega

/-- Witness for C5 on the concrete `5 × 5` pipeline run accepting one
instance (confidence 1/2, box `(0, 0)–(4, 4)` inside the 5×5 canvas). -/
theorem C5_instancias_validas_witness :
    (0 ≤ (procesarSalidasYolo11Seg expUno resizeUnos nmsPrimero (1/4) cfgLaxa 2
        detsUnAncla [mascaraCero] 5 5).headI.confianza ∧
      (procesarSalidasYolo11Seg expUno resizeUnos nmsPrimero (1/4) cfgLaxa 2
        detsUnAncla [mascaraCero] 5 5).headI.confianza ≤ 1) ∧
    (0 ≤ (procesarSalidasYolo11Seg expUno resizeUnos nmsPrimero (1/4) cfgLaxa 2
        detsUnAncla [mascaraCero] 5 5).headI.x1 ∧
      (procesarSalidasYolo11Seg expUno resizeUnos nmsPrimero (1/4) cfgLaxa 2
        detsUnAncla [mascaraCero] 5 5).headI.x1 <
        (procesarSalidasYolo11Seg expUno resizeUnos nmsPrimero (1/4) cfgLaxa 2
          detsUnAncla [mascaraCero] 5 5).headI.x2 ∧
      (procesarSalidasYolo11Seg expUno resizeUnos nmsPrimero (1/4) cfgLaxa 2
        detsUnAncla [mascaraCero] 5 5).headI.x2 < (5 : ℤ)) ∧
    (0 ≤ (procesarSalidasYolo11Seg expUno resizeUnos nmsPrimero (1/4) cfgLaxa 2
        detsUnAncla [mascaraCero] 5 5).headI.y1 ∧
      (procesarSalidasYolo11Seg expUno resizeUnos nmsPrimero (1/4) cfgLaxa 2
        detsUnAncla [mascaraCero] 5 5).headI.y1 <
        (procesarSalidasYolo11Seg expUno resizeUnos nmsPrimero (1/4) cfgLaxa 2
          detsUnAncla [mascaraCero] 5 5).headI.y2 ∧
      (procesarSalidasYolo11Seg expUno resizeUnos nmsPrimero (1/4) cfgLaxa 2
        detsUnAncla [mascaraCero] 5 5).headI.y2 < (5 : ℤ)) :=
  C5_instancias_validas expUno resizeUnos nmsPrimero (1/4) cfgLaxa 2
    detsUnAncla [mascaraCero] 5 5 _ (fun x => by norm_num [expUno])
    (by with_unfolding_all decide) (by with_unfolding_all decide)
    (headI_mem_self (by
      intro hnil
      have : (procesarSalidasYolo11Seg expUno resizeUnos nmsPrimero (1/4) cfgLaxa 2
          detsUnAncla [mascaraCero] 5 5).length = 1 := by with_unfolding_all decide
      rw [hnil] at this
      simp at this))

end ExpoModelos
